import Mathlib

/-!
A shallow Lean 4 embedding of the consensus core of the dusk-blockchain
repository, together with theorems settling the frozen claims C1..C10.

Conventions of the embedding:
* Go byte slices are `List Nat` whose elements are byte values.
* Go machine integers are `Nat` with explicit `% 2 ^ w` where overflow can
  occur (`uint8` arithmetic in slice indices, `uint8` strike counters).
* Go maps are association lists with a lookup-or-default operation.
* Fallible Go functions return `Option`/a success flag; a Go panic
  (out-of-bounds slice index) is `none`.
* External collaborators that the spec declares out of scope (block
  verifier, state-transition executor, storage, candidate store,
  BLS signing) are parameters of the model, bundled in environment
  structures.
-/

/-- Byte strings are lists of byte values. -/
abbrev ByteStr := List Nat

namespace Dusk

/-! ### Provisioners and the reduction committee
From `pkg/core/consensus/reduction/committee.go`. -/

/-- A provisioner entry of the `user.Provisioners` map.  Only the key is
relevant to the embedded operations. -/
structure Member where
  blsKey : ByteStr
  stake : Nat
deriving Repr, DecidableEq

/-- `user.Provisioners`: the registry of staked members.  Go stores a
`map[string]*Member`; the embedding keeps the entries as a list. -/
structure Provisioners where
  members : List Member
deriving Repr, DecidableEq

/-- `const committeeSize = 64` in `reduction/committee.go`. -/
def committeeSize : Nat := 64

/-- `reductionCommittee.size`: `min(64, len(provisioners.Members))`,
written with the source's comparison. -/
def rcSize (p : Provisioners) : Nat :=
  let size := p.members.length
  if size > committeeSize then committeeSize else size

/-- `reductionCommittee.Quorum`: the Go source computes
`int(float64(r.size(provisioners)) * 0.75)`.  For `0 ≤ size ≤ 64` the
product `size * 0.75` is exactly representable in float64 (it is a
dyadic rational `3*size/4` with `3*size ≤ 192`), and Go's conversion to
`int` truncates toward zero, so the computation is exactly the natural
floor division `3 * size / 4`. -/
def rcQuorum (p : Provisioners) : Nat :=
  3 * rcSize p / 4

/-- A voting committee: the multiset of members holding slots for one
`(round, step)`.  `user.VotingCommittee.IsMember` (whose file is not part
of the extract) tests membership of a BLS key; the embedding keeps the
member keys as a list. -/
structure VotingCommittee where
  memberKeys : List ByteStr
deriving Repr, DecidableEq

/-- `user.VotingCommittee.IsMember`: membership of the BLS key. -/
def VotingCommittee.isMem (vc : VotingCommittee) (pk : ByteStr) : Bool :=
  vc.memberKeys.contains pk

/-- Modelled from the spec: the committee `Cache` of
`pkg/core/consensus/committee` is absent from the extract; per spec §4.1
it memoizes `(round, step) → VotingCommittee`.  The embedding records the
set of filled keys, which is all `IsMember` needs of it. -/
structure CommitteeCache where
  filled : List (Nat × Nat)
deriving Repr, DecidableEq

/-- Modelled from the spec: `Cache.PregenerateCommittees(provisioners,
round, startingStep, amount, size)` fills the cache ahead for `amount`
steps starting at `startingStep` (spec §4.1).  It touches only the
cache. -/
def CommitteeCache.pregenerate (c : CommitteeCache) (round startingStep amount : Nat) :
    CommitteeCache :=
  ⟨c.filled ++ (List.range amount).map (fun i => (round, startingStep + i))⟩

/-- The `reductionCommittee` struct: an embedded `*committee.Cache` and a
`committees []user.VotingCommittee` slice. -/
structure ReductionCommittee where
  cache : CommitteeCache
  committees : List VotingCommittee
deriving Repr, DecidableEq

/-- `newReductionCommittee()`: fresh cache, nil `committees` slice. -/
def newReductionCommittee : ReductionCommittee :=
  ⟨⟨[]⟩, []⟩

/-- `reductionCommittee.IsMember`.  `step` is a Go `uint8` (so `< 256`).
The source reads

```go
if int(step) > len(r.committees) {
    startingStep := uint8(len(r.committees))
    amount := step - startingStep + 8
    r.Cache.PregenerateCommittees(provisioners, round, startingStep, amount, r.size(provisioners))
}
votingCommittee := r.committees[step-1]
return votingCommittee.IsMember(pubKeyBLS)
```

`step-1` is `uint8` arithmetic, hence `(step + 255) % 256`; the slice
access panics when that index is out of bounds, which the embedding
renders as `none`.  The mutated receiver (the cache fill) is returned
alongside the result. -/
def ReductionCommittee.isMember (r : ReductionCommittee) (p : Provisioners)
    (pubKeyBLS : ByteStr) (round step : Nat) :
    Option Bool × ReductionCommittee :=
  let r' :=
    if step > r.committees.length then
      let startingStep := r.committees.length % 256
      let amount := (step + 256 - startingStep + 8) % 256
      { r with cache := r.cache.pregenerate round startingStep amount }
    else r
  let idx := (step + 255) % 256
  match r'.committees[idx]? with
  | none => (none, r')
  | some vc => (some (vc.isMem pubKeyBLS), r')

/-! ### Wire encoding primitives and the block Certificate
The `Certificate` struct with `Encode`/`Decode` is in the extract
(`src/unnamed/part_006`, package `block`).  The encoding primitives of
`pkg/p2p/wire/encoding` are not; they are modelled from spec §6:
little-endian fixed-width integers, classical `VarInt` length prefixes,
`VarBytes = VarInt length ‖ bytes`, `256 = 32 raw bytes`,
`BLS signature = 48 raw bytes`. -/

/-- Little-endian encoding of `n` on `k` bytes (the written value is
`n mod 2^(8k)`, as for a Go fixed-width integer). -/
def toLE : Nat → Nat → List Nat
  | 0, _ => []
  | k + 1, n => n % 256 :: toLE k (n / 256)

/-- Little-endian decoding of a byte list. -/
def fromLE : List Nat → Nat
  | [] => 0
  | b :: bs => b % 256 + 256 * fromLE bs

/-- Pull `n` bytes off the stream; `none` when the stream is shorter. -/
def readBytes (n : Nat) (s : List Nat) : Option (List Nat × List Nat) :=
  if n ≤ s.length then some (s.take n, s.drop n) else none

/-- Modelled from the spec: `encoding.WriteVarInt`, the classical
variable-length integer prefix (1, 3, 5 or 9 bytes). -/
def writeVarInt (n : Nat) : List Nat :=
  if n < 0xfd then [n]
  else if n ≤ 0xffff then 0xfd :: toLE 2 n
  else if n ≤ 0xffffffff then 0xfe :: toLE 4 n
  else 0xff :: toLE 8 n

/-- Modelled from the spec: `encoding.ReadVarInt`. -/
def readVarInt (s : List Nat) : Option (Nat × List Nat) :=
  match s with
  | [] => none
  | tag :: rest =>
    if tag = 0xfd then
      (readBytes 2 rest).map (fun pr => (fromLE pr.1, pr.2))
    else if tag = 0xfe then
      (readBytes 4 rest).map (fun pr => (fromLE pr.1, pr.2))
    else if tag = 0xff then
      (readBytes 8 rest).map (fun pr => (fromLE pr.1, pr.2))
    else some (tag, rest)

/-- Modelled from the spec: `encoding.WriteVarBytes`, a `VarInt` length
followed by the raw bytes. -/
def writeVarBytes (b : List Nat) : List Nat :=
  writeVarInt b.length ++ b

/-- Modelled from the spec: `encoding.ReadVarBytes`. -/
def readVarBytes (s : List Nat) : Option (List Nat × List Nat) :=
  match readVarInt s with
  | none => none
  | some (n, rest) => readBytes n rest

/-- Modelled from the spec: a BLS signature is written as 48 raw bytes
(spec §6); `WriteBLS` errors on any other length. -/
def blsSize : Nat := 48

/-- Modelled from the spec: `encoding.WriteBLS`. -/
def writeBLS (b : List Nat) : Option (List Nat) :=
  if b.length = blsSize then some b else none

/-- Modelled from the spec: `encoding.Write256`, 32 raw bytes. -/
def write256 (b : List Nat) : Option (List Nat) :=
  if b.length = 32 then some b else none

/-- `block.Certificate` (`src/unnamed/part_006`). -/
structure Certificate where
  brBatchedSig : ByteStr
  brStep : Nat
  brPubKeys : List ByteStr
  srBatchedSig : ByteStr
  srStep : Nat
  srPubKeys : List ByteStr
  hash : ByteStr
deriving Repr, DecidableEq

/-- Validity of a certificate for serialization: signature and hash
fields have their fixed sizes, the step counters fit `uint32` and the
key-list lengths fit the `uint64` passed to `WriteVarInt`. -/
def Certificate.valid (c : Certificate) : Prop :=
  c.brBatchedSig.length = blsSize ∧ c.srBatchedSig.length = blsSize ∧
  c.hash.length = 32 ∧ c.brStep < 2 ^ 32 ∧ c.srStep < 2 ^ 32 ∧
  c.brPubKeys.length < 2 ^ 64 ∧ c.srPubKeys.length < 2 ^ 64 ∧
  (∀ k ∈ c.brPubKeys, k.length < 2 ^ 64) ∧ (∀ k ∈ c.srPubKeys, k.length < 2 ^ 64)

instance (c : Certificate) : Decidable c.valid := by
  unfold Certificate.valid
  infer_instance

/-- `Certificate.EncodeHashable`: BLS sig, `u32 LE` step, `VarInt` count,
`VarBytes` keys for each reduction phase. -/
def Certificate.encodeHashable (c : Certificate) : Option (List Nat) :=
  match writeBLS c.brBatchedSig with
  | none => none
  | some br =>
    match writeBLS c.srBatchedSig with
    | none => none
    | some sr =>
      some (br ++ toLE 4 c.brStep ++ writeVarInt c.brPubKeys.length ++
        (c.brPubKeys.map writeVarBytes).flatten ++
        sr ++ toLE 4 c.srStep ++ writeVarInt c.srPubKeys.length ++
        (c.srPubKeys.map writeVarBytes).flatten)

/-- `Certificate.Encode`: the hashable fields followed by the 32-byte
hash. -/
def Certificate.encode (c : Certificate) : Option (List Nat) :=
  match c.encodeHashable with
  | none => none
  | some body =>
    match write256 c.hash with
    | none => none
    | some h => some (body ++ h)

/-- Read `n` `VarBytes` items. -/
def readVarBytesList : Nat → List Nat → Option (List ByteStr × List Nat)
  | 0, s => some ([], s)
  | n + 1, s =>
    match readVarBytes s with
    | none => none
    | some (b, rest) =>
      match readVarBytesList n rest with
      | none => none
      | some (bs, rest') => some (b :: bs, rest')

/-- `Certificate.Decode`: sequentially parse the fields written by
`Encode`; returns the certificate and the unread remainder. -/
def Certificate.decode (s : List Nat) : Option (Certificate × List Nat) :=
  match readBytes blsSize s with
  | none => none
  | some (brSig, s1) =>
    match readBytes 4 s1 with
    | none => none
    | some (brStepB, s2) =>
      match readVarInt s2 with
      | none => none
      | some (nBR, s3) =>
        match readVarBytesList nBR s3 with
        | none => none
        | some (brKeys, s4) =>
          match readBytes blsSize s4 with
          | none => none
          | some (srSig, s5) =>
            match readBytes 4 s5 with
            | none => none
            | some (srStepB, s6) =>
              match readVarInt s6 with
              | none => none
              | some (nSR, s7) =>
                match readVarBytesList nSR s7 with
                | none => none
                | some (srKeys, s8) =>
                  match readBytes 32 s8 with
                  | none => none
                  | some (h, s9) =>
                    some (⟨brSig, fromLE brStepB, brKeys,
                           srSig, fromLE srStepB, srKeys, h⟩, s9)

/-! ### The chain driver
From `Chain` in `src/pkg/core/consensus/generation/generator.go`
(package `chain`): `AcceptBlock`, `handleCertificateMessage`,
`sendRoundUpdate`, `GetSyncProgress`. -/

/-- A transaction is opaque to the chain driver. -/
abbrev Tx := Nat

/-- The consensus-relevant fields of `block.Header`. -/
structure BlockHeader where
  height : Nat
  seed : ByteStr
  hash : ByteStr
  certificate : Option Certificate
deriving Repr, DecidableEq

/-- `block.Block`. -/
structure Block where
  header : BlockHeader
  txs : List Tx
deriving Repr, DecidableEq

/-- A `message.Candidate`: a candidate block with its certificate. -/
structure Candidate where
  block : Block
  certificate : Certificate
deriving Repr, DecidableEq

/-- The chain's `certMsg` collector item: certificate, winning hash and
committee keys. -/
structure CertMsg where
  cert : Certificate
  hash : ByteStr
  committee : List ByteStr
deriving Repr, DecidableEq

/-- The mutable fields of `Chain` that the embedded operations touch. -/
structure ChainState where
  p : Provisioners
  prevBlock : Block
  storedBlocks : List Block
  intermediateBlock : Option Block
  lastCertificate : Option Certificate
  lastCommittee : List ByteStr
  highestSeen : Nat
deriving Repr, DecidableEq

/-- Messages the chain publishes on the event bus / gossips. -/
inductive ChainOut where
  | gossipInv (hash : ByteStr)
  | acceptedBlock (blk : Block)
  | intermediateBlockMsg (blk : Block)
  | roundUpdate (round : Nat) (hash seed : ByteStr)
deriving Repr, DecidableEq

/-- External collaborators of the chain driver (spec §1 declares them out
of scope): the block verifier, the certificate verifier, the
state-transition executor, the storage append and the candidate store.
Each is a pure oracle. -/
structure ChainEnv where
  sanityCheckBlock : Block → Block → Bool
  checkBlockCertificate : Provisioners → Block → Bool
  executeStateTransition : List Tx → Nat → Option Provisioners
  appendOk : Block → Bool
  getCandidate : ByteStr → Option Candidate

/-- `Chain.AcceptBlock`, step by step:
1. `verifier.SanityCheckBlock(prevBlock, blk)`;
2. `verifiers.CheckBlockCertificate(*c.p, blk)`;
3. `executor.ExecuteStateTransition` — on success the result is cached
   into `c.p` immediately;
4. `loader.Append(&blk)`;
5. `advertiseBlock` (gossips an `Inv`; its only error paths are panics);
6. `c.prevBlock = blk` and publish `AcceptedBlock`.
Returns the new state, the published messages and the success flag
(`true` iff the Go method returns `nil`). -/
def acceptBlock (env : ChainEnv) (s : ChainState) (blk : Block) :
    ChainState × List ChainOut × Bool :=
  if ¬ env.sanityCheckBlock s.prevBlock blk then (s, [], false)
  else if ¬ env.checkBlockCertificate s.p blk then (s, [], false)
  else
    match env.executeStateTransition blk.txs blk.header.height with
    | none => (s, [], false)
    | some provisioners =>
      let s1 := { s with p := provisioners }
      if ¬ env.appendOk blk then (s1, [], false)
      else
        let s2 := { s1 with storedBlocks := s1.storedBlocks ++ [blk] }
        let s3 := { s2 with prevBlock := blk }
        (s3, [ChainOut.gossipInv blk.header.hash, ChainOut.acceptedBlock blk], true)

/-- `Chain.sendRoundUpdate`: publishes a `RoundUpdate` built from the
current intermediate block's header (`Round = Height + 1`). -/
def sendRoundUpdate (s : ChainState) : List ChainOut :=
  match s.intermediateBlock with
  | none => []
  | some ib => [ChainOut.roundUpdate (ib.header.height + 1) ib.header.hash ib.header.seed]

/-- `Chain.finalizeIntermediateBlock`: stamp the certificate onto the
intermediate block's header, then `AcceptBlock` it. -/
def stampCertificate (b : Block) (cert : Certificate) : Block :=
  { b with header := { b.header with certificate := some cert } }

/-- `Chain.handleCertificateMessage`:
sets `lastCertificate`/`lastCommittee`, fetches the winning candidate via
`GetCandidate`, bails out when the candidate or the intermediate block is
missing, finalizes the intermediate block (stamp + `AcceptBlock`),
installs the candidate as new intermediate, publishes the
`IntermediateBlock` message and a `RoundUpdate`. -/
def handleCertificateMessage (env : ChainEnv) (s : ChainState) (cMsg : CertMsg) :
    ChainState × List ChainOut :=
  let s0 := { s with lastCertificate := some cMsg.cert, lastCommittee := cMsg.committee }
  match env.getCandidate cMsg.hash with
  | none => (s0, [])
  | some cm =>
    match s0.intermediateBlock with
    | none => (s0, [])
    | some ib =>
      let stamped := stampCertificate ib cm.certificate
      let s1 := { s0 with intermediateBlock := some stamped }
      let res := acceptBlock env s1 stamped
      if ¬ res.2.2 then (res.1, res.2.1)
      else
        let s2 := { res.1 with intermediateBlock := some cm.block }
        (s2, res.2.1 ++ [ChainOut.intermediateBlockMsg cm.block] ++ sendRoundUpdate s2)

/-- `Chain.GetSyncProgress`, with the float64 arithmetic embedded as
exact rational arithmetic: `0` when no block has been seen from the
network, otherwise `(tipHeight / highestSeen) * 100` capped at `100`. -/
def getSyncProgress (s : ChainState) : ℚ :=
  if s.highestSeen = 0 then 0
  else
    let progressPercentage : ℚ :=
      ((s.prevBlock.header.height : ℚ) / (s.highestSeen : ℚ)) * 100
    if progressPercentage > 100 then 100 else progressPercentage

/-! ### The signature-set notary collector
From `sigSetCollector` in `src/pkg/core/consensus/notary/sigset.go`.
The embedded `committee.Collector` helpers (`ShouldBeSkipped`, `Store`,
`UpdateRound`, `Clear`) live in the `committee` package, which is not in
the extract; `Store`/`Clear` are modelled from the `StepEventCollector`
tests in `src/unnamed/part_006` (duplicate events are not stored twice)
and `ShouldBeSkipped` is kept as an oracle of the committee model. -/

/-- A `SigSetEvent` as the collector sees it. -/
structure SigSetEvent where
  round : Nat
  step : Nat
  sender : ByteStr
  blockHash : ByteStr
deriving Repr, DecidableEq

/-- The committee interface the collector consults: `Quorum()` and the
validity filter `ShouldBeSkipped` (membership, signature and duplicate
checks performed by the missing `committee.Collector`). -/
structure NotaryCommittee where
  quorum : Nat
  skip : SigSetEvent → Bool

/-- Lookup in an association list of lists, defaulting to `[]` (a Go map
access of a missing key yields the nil slice). -/
def lookupD (m : List (Nat × List SigSetEvent)) (k : Nat) : List SigSetEvent :=
  match m.find? (fun e => e.1 == k) with
  | none => []
  | some e => e.2

/-- Replace (or create) the entry of key `k` with `v`. -/
def setEntry (m : List (Nat × List SigSetEvent)) (k : Nat) (v : List SigSetEvent) :
    List (Nat × List SigSetEvent) :=
  if (m.find? (fun e => e.1 == k)).isSome then
    m.map (fun e => if e.1 == k then (k, v) else e)
  else m ++ [(k, v)]

/-- The collector's mutable state: the current round, the per-step event
store (`StepEventCollector`) and the future-rounds map. -/
structure SigSetCollectorState where
  currentRound : Nat
  stepEvents : List (Nat × List SigSetEvent)
  futureRounds : List (Nat × List SigSetEvent)
deriving Repr, DecidableEq

/-- Observable actions of the collector: the round notice pushed on
`RoundChan` and the repropagation of a stored event. -/
inductive NotaryOut where
  | roundNotice (r : Nat)
  | repropagated (ev : SigSetEvent)
deriving Repr, DecidableEq

/-- Modelled from the spec: `committee.Collector.Store(ev, step)` appends
the event to the per-step list unless an equal event is already there
(behaviour fixed by the `StepEventCollector` tests in
`src/unnamed/part_006`). -/
def storeStep (m : List (Nat × List SigSetEvent)) (step : Nat) (ev : SigSetEvent) :
    List (Nat × List SigSetEvent) :=
  let l := lookupD m step
  if l.contains ev then m else setEntry m step (l ++ [ev])

/-- `sigSetCollector.ShouldBeStored`:
`len(stepEvents[step]) + 1 < Quorum() || round > currentRound`. -/
def shouldBeStored (c : NotaryCommittee) (s : SigSetCollectorState) (ev : SigSetEvent) : Bool :=
  (lookupD s.stepEvents ev.step).length + 1 < c.quorum || ev.round > s.currentRound

/-- `sigSetCollector.nextRound` with the processing function abstracted:
increment the round, notify `RoundChan`, clear the step store, then
re-process every event stored for the new current round. -/
def nextRoundWith (proc : SigSetCollectorState → SigSetEvent → SigSetCollectorState × List NotaryOut)
    (s : SigSetCollectorState) : SigSetCollectorState × List NotaryOut :=
  let s1 : SigSetCollectorState :=
    { currentRound := s.currentRound + 1, stepEvents := [], futureRounds := s.futureRounds }
  let replay := lookupD s1.futureRounds s1.currentRound
  replay.foldl (fun acc ev =>
      let r := proc acc.1 ev
      (r.1, acc.2 ++ r.2))
    (s1, [NotaryOut.roundNotice s1.currentRound])

/-- `sigSetCollector.Process`, with fuel bounding the recursion through
`nextRound` (the Go recursion depth is bounded by the number of stored
future rounds):
drop skipped or irrelevant events, queue future-round events, store
current-round events until one completes a quorum, which triggers the
round transition. -/
def processEvent (c : NotaryCommittee) :
    Nat → SigSetCollectorState → SigSetEvent → SigSetCollectorState × List NotaryOut
  | 0, s, _ => (s, [])
  | fuel + 1, s, ev =>
    let isIrrelevant := s.currentRound != 0 && s.currentRound > ev.round
    if c.skip ev || isIrrelevant then (s, [])
    else if shouldBeStored c s ev then
      if ev.round > s.currentRound then
        ({ s with futureRounds := setEntry s.futureRounds ev.round (lookupD s.futureRounds ev.round ++ [ev]) }, [])
      else
        ({ s with stepEvents := storeStep s.stepEvents ev.step ev }, [NotaryOut.repropagated ev])
    else nextRoundWith (processEvent c fuel) s

/-! ### Second-step reduction
From `src/pkg/core/consensus/reduction/secondstep/step.go`.  The message
types (`header.Header`, `message.StepVotes`, `message.StepVotesMsg`,
`message.Agreement`) are not in the extract and are modelled from spec
§3; per the spec an empty `StepVotes` is signalled by a zero bitset or an
all-zero block hash. -/

/-- `header.Header`, the consensus message header (spec §3). -/
structure ConsHeader where
  round : Nat
  step : Nat
  pubKeyBLS : ByteStr
  blockHash : ByteStr
deriving Repr, DecidableEq

/-- `message.StepVotes` (spec §3): aggregated signature, signer bitset
and the step. -/
structure StepVotes where
  apk : ByteStr
  bitset : Nat
  sig : ByteStr
  step : Nat
deriving Repr, DecidableEq

/-- `message.StepVotesMsg`. -/
structure StepVotesMsg where
  header : ConsHeader
  stepVotes : StepVotes
deriving Repr, DecidableEq

/-- Modelled from the spec: `StepVotesMsg.IsEmpty` — a zero bitset
signals the empty (no block agreed) bundle; the all-zero-hash signal is
tested separately by `stepVotesAreValid`. -/
def StepVotesMsg.isEmptySV (svm : StepVotesMsg) : Bool :=
  svm.stepVotes.bitset == 0

/-- `reduction.EmptyHash`: 32 zero bytes. -/
def emptyHash : ByteStr := List.replicate 32 0

/-- `message.Agreement`: header, header signature and the two step-vote
bundles. -/
structure Agreement where
  header : ConsHeader
  signature : ByteStr
  votesPerStep : List StepVotes
deriving Repr, DecidableEq

instance : Inhabited StepVotesMsg :=
  ⟨⟨⟨0, 0, [], []⟩, ⟨[], 0, [], 0⟩⟩⟩

/-- `stepVotesAreValid(svs ...*message.StepVotesMsg)`:
exactly two bundles, neither empty, neither with the empty hash. -/
def stepVotesAreValid (svs : List StepVotesMsg) : Bool :=
  svs.length == 2 &&
  !(svs.getD 0 default).isEmptySV &&
  !(svs.getD 1 default).isEmptySV &&
  !((svs.getD 0 default).header.blockHash == emptyHash) &&
  !((svs.getD 1 default).header.blockHash == emptyHash)

/-- `Phase.sendAgreement`: sign a header carrying the second-step result
hash and gossip an `Agreement` whose `VotesPerStep` are the first-step
and second-step bundles, in that order.  BLS signing is an oracle. -/
def sendAgreement (sign : ConsHeader → ByteStr) (pubKeyBLS : ByteStr)
    (firstStepVotesMsg : StepVotesMsg) (round step : Nat) (svm : StepVotesMsg) : Agreement :=
  let hdr : ConsHeader :=
    { round := round, step := step, pubKeyBLS := pubKeyBLS, blockHash := svm.header.blockHash }
  { header := hdr, signature := sign hdr,
    votesPerStep := [firstStepVotesMsg.stepVotes, svm.stepVotes] }

/-- Outcome of handling one reduction message inside `Phase.Run`:
either the loop continues, or the phase finishes (having gossiped an
`Agreement` or not). -/
inductive ReductionOutcome where
  | continueLoop
  | finished (gossiped : Option Agreement)
deriving Repr, DecidableEq

/-- The decision `Phase.Run` takes once `collectReduction` has produced
its result `svm` (`none` while quorum is not yet reached):

```go
if svm == nil { continue }
if stepVotesAreValid(&p.firstStepVotesMsg, svm) && p.handler.AmMember(r.Round, step) {
    if err := p.sendAgreement(r.Round, step, svm); err != nil { ... }
}
return p.next.Fn(nil), nil
``` -/
def afterCollect (sign : ConsHeader → ByteStr) (pubKeyBLS : ByteStr)
    (firstStepVotesMsg : StepVotesMsg) (round step : Nat) (amMember : Bool)
    (svm : Option StepVotesMsg) : ReductionOutcome :=
  match svm with
  | none => ReductionOutcome.continueLoop
  | some svm =>
    if stepVotesAreValid [firstStepVotesMsg, svm] && amMember then
      ReductionOutcome.finished (some (sendAgreement sign pubKeyBLS firstStepVotesMsg round step svm))
    else
      ReductionOutcome.finished none

/-! ### The reputation moderator
From `src/pkg/core/consensus/reputation/moderator_test.go` (the file also
contains the `moderator` implementation). -/

/-- `const maxStrikes uint8 = 3`. -/
def maxStrikes : Nat := 3

/-- The moderator's strike map.  Go keys the map by the hex encoding of
the public key, which is injective on byte strings, so the embedding
keys by the key bytes directly; counters are `uint8`. -/
structure Moderator where
  strikes : List (ByteStr × Nat)
deriving Repr, DecidableEq

/-- Strike count of a public key (0 when absent, as for a Go map). -/
def Moderator.count (m : Moderator) (pk : ByteStr) : Nat :=
  match m.strikes.find? (fun e => e.1 == pk) with
  | none => 0
  | some e => e.2

/-- `moderator.addStrike`: `strikes[pk]++` (uint8 arithmetic), then
publish a removal request when the count reaches `maxStrikes`.  Returns
the new state and the published removal requests. -/
def Moderator.addStrike (m : Moderator) (absentee : ByteStr) : Moderator × List ByteStr :=
  let c := (m.count absentee + 1) % 256
  let m' : Moderator :=
    ⟨if (m.strikes.find? (fun e => e.1 == absentee)).isSome then
        m.strikes.map (fun e => if e.1 == absentee then (absentee, c) else e)
      else m.strikes ++ [(absentee, c)]⟩
  if c ≥ maxStrikes then (m', [absentee]) else (m', [])

/-- The moderator's event loop restricted to absentee notifications: each
one lands in `addStrike`; the outputs accumulate. -/
def Moderator.run (m : Moderator) (absentees : List ByteStr) : Moderator × List ByteStr :=
  absentees.foldl (fun acc pk =>
      let r := acc.1.addStrike pk
      (r.1, acc.2 ++ r.2))
    (m, [])

/-- The round-update arm of `moderator.listen`: the strike map is
replaced by a fresh empty map. -/
def Moderator.roundUpdate (_ : Moderator) : Moderator := ⟨[]⟩

/-! ### SHA-256 and the voucher-seeder challenge response
`completeChallenge` is in the extract (`src/unnamed/part_000`); the
SHA-256 primitive it calls (`crypto/sha256` of the Go standard library)
is embedded in full below, over byte lists, with 32-bit words as `Nat`
reduced mod `2 ^ 32`. -/

/-- 32-bit modular addition. -/
def add32 (a b : Nat) : Nat := (a + b) % 2 ^ 32

/-- 32-bit right rotation (the argument is a 32-bit word). -/
def rotr32 (n w : Nat) : Nat := (w >>> n) + ((w % 2 ^ n) * 2 ^ (32 - n))

/-- 32-bit bitwise complement. -/
def not32 (w : Nat) : Nat := (2 ^ 32 - 1) - w % 2 ^ 32

/-- Big-endian encoding of `n` on `k` bytes. -/
def toBE : Nat → Nat → List Nat
  | 0, _ => []
  | k + 1, n => toBE k (n / 256) ++ [n % 256]

/-- Big-endian decoding. -/
def fromBE (l : List Nat) : Nat := l.foldl (fun acc b => acc * 256 + b % 256) 0

/-- The 64 SHA-256 round constants of FIPS 180-4, in decimal. -/
def shaK : List Nat :=
  [1116352408, 1899447441, 3049323471, 3921009573, 961987163, 1508970993,
   2453635748, 2870763221, 3624381080, 310598401, 607225278, 1426881987,
   1925078388, 2162078206, 2614888103, 3248222580, 3835390401, 4022224774,
   264347078, 604807628, 770255983, 1249150122, 1555081692, 1996064986,
   2554220882, 2821834349, 2952996808, 3210313671, 3336571891, 3584528711,
   113926993, 338241895, 666307205, 773529912, 1294757372, 1396182291,
   1695183700, 1986661051, 2177026350, 2456956037, 2730485921, 2820302411,
   3259730800, 3345764771, 3516065817, 3600352804, 4094571909, 275423344,
   430227734, 506948616, 659060556, 883997877, 958139571, 1322822218,
   1537002063, 1747873779, 1955562222, 2024104815, 2227730452, 2361852424,
   2428436474, 2756734187, 3204031479, 3329325298]

/-- The initial SHA-256 hash state of FIPS 180-4, in decimal. -/
def shaH0 : List Nat :=
  [1779033703, 3144134277, 1013904242, 2773480762,
   1359893119, 2600822924, 528734635, 1541459225]

/-- SHA-256 `Σ₀`. -/
def bigSigma0 (x : Nat) : Nat := (rotr32 2 x) ^^^ (rotr32 13 x) ^^^ (rotr32 22 x)

/-- SHA-256 `Σ₁`. -/
def bigSigma1 (x : Nat) : Nat := (rotr32 6 x) ^^^ (rotr32 11 x) ^^^ (rotr32 25 x)

/-- SHA-256 `σ₀`. -/
def smallSigma0 (x : Nat) : Nat := (rotr32 7 x) ^^^ (rotr32 18 x) ^^^ (x >>> 3)

/-- SHA-256 `σ₁`. -/
def smallSigma1 (x : Nat) : Nat := (rotr32 17 x) ^^^ (rotr32 19 x) ^^^ (x >>> 10)

/-- SHA-256 choice function. -/
def chf (e f g : Nat) : Nat := (e &&& f) ^^^ (not32 e &&& g)

/-- SHA-256 majority function. -/
def majf (a b c : Nat) : Nat := (a &&& b) ^^^ (a &&& c) ^^^ (b &&& c)

/-- SHA-256 padding: `0x80`, zeros to 56 mod 64, 8-byte big-endian bit
length. -/
def padMessage (msg : List Nat) : List Nat :=
  let L := msg.length
  let k := (119 - L % 64) % 64
  msg ++ [0x80] ++ List.replicate k 0 ++ toBE 8 (8 * L)

/-- The 16 big-endian words of a 64-byte block. -/
def words16 (blk : List Nat) : List Nat :=
  (List.range 16).map (fun i => fromBE ((blk.drop (4 * i)).take 4))

/-- The SHA-256 message schedule (64 words). -/
def schedule (w16 : List Nat) : List Nat :=
  (List.range 48).foldl
    (fun w i =>
      let t := i + 16
      w ++ [add32 (add32 (smallSigma1 (w.getD (t - 2) 0)) (w.getD (t - 7) 0))
              (add32 (smallSigma0 (w.getD (t - 15) 0)) (w.getD (t - 16) 0))])
    w16

/-- One SHA-256 compression round on the working state `[a..h]`. -/
def compressRound (w : List Nat) (st : List Nat) (t : Nat) : List Nat :=
  match st with
  | [a, b, c, d, e, f, g, h] =>
    let t1 := add32 h (add32 (bigSigma1 e) (add32 (chf e f g) (add32 (shaK.getD t 0) (w.getD t 0))))
    let t2 := add32 (bigSigma0 a) (majf a b c)
    [add32 t1 t2, a, b, c, add32 d t1, e, f, g]
  | _ => st

/-- SHA-256 compression of one block into the hash state. -/
def compressBlock (h : List Nat) (blk : List Nat) : List Nat :=
  let w := schedule (words16 blk)
  let st := (List.range 64).foldl (compressRound w) h
  List.zipWith add32 h st

/-- Split into 64-byte blocks (the padded length is a multiple of 64). -/
def chunk64 (l : List Nat) : List (List Nat) :=
  (List.range (l.length / 64)).map (fun i => (l.drop (64 * i)).take 64)

/-- SHA-256 of a byte list. -/
def sha256 (msg : List Nat) : List Nat :=
  (((chunk64 (padMessage msg)).foldl compressBlock shaH0).map (toBE 4)).flatten

/-- One uppercase hex digit (ASCII). -/
def hexDigitUpper (n : Nat) : Nat := if n < 10 then 48 + n else 55 + n

/-- `strings.ToUpper(hex.EncodeToString(bytes))` as ASCII bytes. -/
def upperHex (bytes : List Nat) : List Nat :=
  (bytes.map (fun b => [hexDigitUpper (b % 256 / 16), hexDigitUpper (b % 16)])).flatten

/-- `strings.Split(string(buf), "\n")[0]`: the bytes before the first
newline (the whole string when it has none). -/
def untilNewline (l : List Nat) : List Nat := l.takeWhile (fun b => b != 10)

/-- The response bytes `completeChallenge` writes back
(`src/unnamed/part_000`): the challenge is cut at the first newline, the
cut part is concatenated with `SEEDER_KEY`, hashed, hex-encoded in upper
case, and followed by `","`, the local port and `"\n"`. -/
def completeChallengeResponse (challenge seederKey port : List Nat) : List Nat :=
  let generated := untilNewline challenge
  upperHex (sha256 (generated ++ seederKey)) ++ [44] ++ port ++ [10]

/-- The response format as the spec words it (§4.6, testable property 9):
`UPPERCASE_HEX(SHA-256(challenge ‖ SEEDER_KEY)) ‖ "," ‖ port ‖ "\n"`,
over the whole challenge. -/
def voucherResponseSpec (challenge seederKey port : List Nat) : List Nat :=
  upperHex (sha256 (challenge ++ seederKey)) ++ [44] ++ port ++ [10]

/-! ### Concrete fixtures used by witnesses and counterexamples -/

/-- A certificate with well-sized fields. -/
def certA : Certificate :=
  ⟨List.replicate 48 1, 2, [[1]], List.replicate 48 2, 3, [[2]], List.replicate 32 7⟩

/-- A chain tip at height 5. -/
def blk5 : Block := ⟨⟨5, [9], [5, 5], none⟩, [1]⟩

/-- An intermediate block at height 6. -/
def ib6 : Block := ⟨⟨6, [8], [6, 6], none⟩, [2]⟩

/-- A winning candidate at height 7. -/
def blk7 : Block := ⟨⟨7, [4], [7, 7], none⟩, [3]⟩

/-- A provisioner registry. -/
def pOld : Provisioners := ⟨[⟨[1], 10⟩]⟩

/-- The registry the state-transition executor returns. -/
def pNew : Provisioners := ⟨[⟨[2], 20⟩]⟩

/-- A chain state holding tip `blk5` and intermediate `ib6`. -/
def chainS0 : ChainState := ⟨pOld, blk5, [blk5], some ib6, none, [], 0⟩

/-- An environment whose checks all pass, whose executor yields `pNew`,
whose storage accepts appends and whose candidate store returns `blk7`
with `certA`. -/
def envHappy : ChainEnv :=
  ⟨fun _ _ => true, fun _ _ => true, fun _ _ => some pNew, fun _ => true,
   fun _ => some ⟨blk7, certA⟩⟩

/-- Like `envHappy` but the storage append fails. -/
def envAppendFail : ChainEnv := { envHappy with appendOk := fun _ => false }

/-- A certificate message for winning hash `[7, 7]`. -/
def cMsgA : CertMsg := ⟨certA, [7, 7], [[1]]⟩

/-- A notary committee with quorum 1 that skips nothing. -/
def notaryC1 : NotaryCommittee := ⟨1, fun _ => false⟩

/-- A collector at round 5 with empty stores. -/
def ssS0 : SigSetCollectorState := ⟨5, [], []⟩

/-- A round-7 event from sender `[1]`. -/
def ev71 : SigSetEvent := ⟨7, 2, [1], [9]⟩

/-- A round-7 event from sender `[2]`. -/
def ev72 : SigSetEvent := ⟨7, 2, [2], [9]⟩

/-- A trivial signing oracle. -/
def signZ : ConsHeader → ByteStr := fun _ => [0]

/-- An empty first-step bundle (zero bitset). -/
def svmEmptyFix : StepVotesMsg := ⟨⟨1, 2, [5], [7]⟩, ⟨[], 0, [], 2⟩⟩

/-- A non-empty first-step bundle with a non-zero hash. -/
def svmFirstOk : StepVotesMsg := ⟨⟨1, 2, [5], [7]⟩, ⟨[1], 3, [2], 2⟩⟩

/-- A non-empty second-step bundle with a non-zero hash. -/
def svmSecondOk : StepVotesMsg := ⟨⟨1, 3, [5], [8]⟩, ⟨[1], 5, [2], 3⟩⟩

/-- The spec's S4 challenge: `"ABC\n"` followed by 60 `NUL`s. -/
def chalS4 : List Nat := [65, 66, 67, 10] ++ List.replicate 60 0

/-- The spec's S4 seeder key, `"key"`. -/
def keyS4 : List Nat := [107, 101, 121]

/-- The spec's S4 port, `"7447"`. -/
def portS4 : List Nat := [55, 52, 52, 55]

/-- A newline-free 64-byte challenge. -/
def chalZeros : List Nat := List.replicate 64 0

/-! ## Theorems settling the claims -/

/-- Helper: the result component of `reductionCommittee.IsMember` only
depends on the `committees` slice — the pregeneration branch does not
change it. -/
theorem isMember_fst (r : ReductionCommittee) (p : Provisioners) (pk : ByteStr)
    (round step : Nat) :
    (r.isMember p pk round step).1 =
      match r.committees[(step + 255) % 256]? with
      | none => none
      | some vc => some (vc.isMem pk) := by
  unfold ReductionCommittee.isMember
  rcases hg : r.committees[(step + 255) % 256]? with _ | vc <;>
    by_cases h : step > r.committees.length <;>
    simp [h, hg]

/-- Helper: `IsMember` never changes the `committees` slice. -/
theorem isMember_committees (r : ReductionCommittee) (p : Provisioners) (pk : ByteStr)
    (round step : Nat) :
    (r.isMember p pk round step).2.committees = r.committees := by
  unfold ReductionCommittee.isMember
  rcases hg : r.committees[(step + 255) % 256]? with _ | vc <;>
    by_cases h : step > r.committees.length <;>
    simp [h, hg]

/-- C1 (counterexample): for a registry with a single member the
committee size is 1, `Quorum` is `int(1 * 0.75) = 0`, while the claim's
`ceil(0.75 * 1) = 1`. -/
theorem C1_counterexample :
    rcQuorum ⟨[⟨[1], 10⟩]⟩ ≠ Nat.ceil ((0.75 : ℚ) * (rcSize ⟨[⟨[1], 10⟩]⟩ : ℚ)) := by
  have h1 : rcQuorum ⟨[⟨[1], 10⟩]⟩ = 0 := by decide
  have h2 : rcSize ⟨[⟨[1], 10⟩]⟩ = 1 := by decide
  have h3 : Nat.ceil ((0.75 : ℚ) * ((1 : ℕ) : ℚ)) = 1 := by
    rw [show ((0.75 : ℚ) * ((1 : ℕ) : ℚ)) = 3 / 4 by norm_num]
    rw [Nat.ceil_eq_iff (by norm_num)]
    norm_num
  rw [h1, h2, h3]
  norm_num

/-- C1 (amended): for every provisioner registry, the reduction quorum
threshold equals the FLOOR of `0.75` times the committee size
`min(64, |members|)` — Go's `int(float64(size) * 0.75)` truncates. -/
theorem C1_quorum_floor (p : Provisioners) :
    rcQuorum p = Nat.floor ((0.75 : ℚ) * (rcSize p : ℚ)) := by
  have h : (0.75 : ℚ) * (rcSize p : ℚ) = ((3 * rcSize p : ℕ) : ℚ) / ((4 : ℕ) : ℚ) := by
    push_cast
    ring
  rw [h, Nat.floor_div_eq_div]
  rfl

/-- C10: the slice access in `reductionCommittee.IsMember` is in bounds
exactly when `1 ≤ step ≤ len(committees)` (for `uint8` steps and any
reachable slice length); the pregeneration branch never extends the
`committees` slice; and on a freshly constructed `reductionCommittee`
every call would panic (`none`). -/
theorem C10_isMember_bounds (r : ReductionCommittee) (p : Provisioners) (pk : ByteStr)
    (round step : Nat) (hstep : step < 256) (hlen : r.committees.length ≤ 255) :
    (((r.isMember p pk round step).1 = none) ↔ ¬(1 ≤ step ∧ step ≤ r.committees.length)) ∧
    (r.isMember p pk round step).2.committees = r.committees ∧
    (newReductionCommittee.isMember p pk round step).1 = none := by
  refine ⟨?_, isMember_committees r p pk round step, ?_⟩
  · rw [isMember_fst]
    rcases hg : r.committees[(step + 255) % 256]? with _ | vc <;> simp [hg]
    · have := List.getElem?_eq_none_iff.mp hg
      omega
    · have hne : ¬ r.committees[(step + 255) % 256]? = none := by simp [hg]
      rw [List.getElem?_eq_none_iff] at hne
      omega
  · rw [isMember_fst]
    simp [newReductionCommittee]

/-- C10 (witness): on a fresh committee, `IsMember` at step 3 is a
panic. -/
theorem C10_witness :
    (3 : Nat) < 256 ∧ ((ReductionCommittee.isMember ⟨⟨[]⟩, []⟩ ⟨[]⟩ [] 4 3).1 = none) :=
  ⟨by decide,
   ((C10_isMember_bounds ⟨⟨[]⟩, []⟩ ⟨[]⟩ [] 4 3 (by decide) (by decide)).1).mpr (by decide)⟩

/-- C9: `GetSyncProgress` always returns a value in `[0, 100]`; it is 0
when no block has been seen from the network, and otherwise the
percentage of the tip height over the highest-seen height, capped at
100. -/
theorem C9_syncProgress (s : ChainState) :
    0 ≤ getSyncProgress s ∧ getSyncProgress s ≤ 100 ∧
    (s.highestSeen = 0 → getSyncProgress s = 0) ∧
    (s.highestSeen ≠ 0 →
      getSyncProgress s =
        min (((s.prevBlock.header.height : ℚ) / (s.highestSeen : ℚ)) * 100) 100) := by
  unfold getSyncProgress
  by_cases h : s.highestSeen = 0
  · simp [h]
  · rw [if_neg h]
    have hq : (0 : ℚ) ≤ ((s.prevBlock.header.height : ℚ) / (s.highestSeen : ℚ)) * 100 := by
      positivity
    simp only [gt_iff_lt]
    split_ifs with hgt
    · exact ⟨by norm_num, le_refl _, fun hc => absurd hc h,
        fun _ => (min_eq_right (le_of_lt hgt)).symm⟩
    · push_neg at hgt
      exact ⟨hq, hgt, fun hc => absurd hc h, fun _ => (min_eq_left hgt).symm⟩

/-- C9 (witness): progress of `chainS0`, which has seen no network
block, is 0. -/
theorem C9_witness : getSyncProgress chainS0 = 0 :=
  (C9_syncProgress chainS0).2.2.1 rfl

/-- C2 (counterexample): with an environment whose storage append fails
after a successful state transition, `AcceptBlock` returns an error yet
the provisioners registry has been replaced (`c.p = &provisioners`
happens before `loader.Append`). -/
theorem C2_counterexample :
    (acceptBlock envAppendFail chainS0 blk7).2.2 = false ∧
    (acceptBlock envAppendFail chainS0 blk7).1.p ≠ chainS0.p := by
  decide

/-- C2 (amended): when `AcceptBlock` returns an error, the stored
blocks, `prevBlock` and the other chain fields keep their prior values
and nothing is published; the provisioners registry also keeps its prior
value UNLESS the failing step is the storage append itself, in which
case the registry has already been replaced by the state-transition
result. -/
theorem C2_accept_error_state (env : ChainEnv) (s : ChainState) (blk : Block)
    (h : (acceptBlock env s blk).2.2 = false) :
    (acceptBlock env s blk).1.storedBlocks = s.storedBlocks ∧
    (acceptBlock env s blk).1.prevBlock = s.prevBlock ∧
    (acceptBlock env s blk).1.intermediateBlock = s.intermediateBlock ∧
    (acceptBlock env s blk).1.lastCertificate = s.lastCertificate ∧
    (acceptBlock env s blk).1.lastCommittee = s.lastCommittee ∧
    (acceptBlock env s blk).1.highestSeen = s.highestSeen ∧
    (acceptBlock env s blk).2.1 = [] ∧
    ((acceptBlock env s blk).1.p = s.p ∨
      (env.appendOk blk = false ∧
        ∃ P, env.executeStateTransition blk.txs blk.header.height = some P ∧
          (acceptBlock env s blk).1.p = P)) := by
  by_cases h1 : env.sanityCheckBlock s.prevBlock blk = true
  · by_cases h2 : env.checkBlockCertificate s.p blk = true
    · rcases h3 : env.executeStateTransition blk.txs blk.header.height with _ | P
      · simp [acceptBlock, h1, h2, h3]
      · by_cases h4 : env.appendOk blk = true
        · exfalso
          simp [acceptBlock, h1, h2, h3, h4] at h
        · refine ⟨?_, ?_, ?_, ?_, ?_, ?_, ?_, Or.inr ⟨?_, P, ?_, ?_⟩⟩ <;>
            simp [acceptBlock, h1, h2, h3, h4]
    · simp [acceptBlock, h1, h2]
  · simp [acceptBlock, h1]

/-- C2 (witness): a concrete append-failure run of the amended
statement. -/
theorem C2_witness :
    (acceptBlock envAppendFail chainS0 blk7).1.storedBlocks = chainS0.storedBlocks ∧
    (acceptBlock envAppendFail chainS0 blk7).1.prevBlock = chainS0.prevBlock :=
  ⟨(C2_accept_error_state envAppendFail chainS0 blk7 (by decide)).1,
   (C2_accept_error_state envAppendFail chainS0 blk7 (by decide)).2.1⟩

/-- C3: on a `CertificateMessage` for a winning candidate, with the
intermediate block present at height `h`, the candidate retrievable at
height `h + 1` and the external checks accepting the stamped block, the
chain stamps the candidate message's certificate onto the intermediate
block, appends it to storage, installs the candidate as new intermediate
and publishes a `RoundUpdate` with round `h + 2`. -/
theorem C3_certificate_finalization (env : ChainEnv) (s : ChainState) (cMsg : CertMsg)
    (ib : Block) (cm : Candidate) (h : Nat) (P : Provisioners)
    (hib : s.intermediateBlock = some ib)
    (hh : ib.header.height = h)
    (hcand : env.getCandidate cMsg.hash = some cm)
    (hch : cm.block.header.height = h + 1)
    (hsan : env.sanityCheckBlock s.prevBlock (stampCertificate ib cm.certificate) = true)
    (hcert : env.checkBlockCertificate s.p (stampCertificate ib cm.certificate) = true)
    (hexec : env.executeStateTransition ib.txs ib.header.height = some P)
    (happ : env.appendOk (stampCertificate ib cm.certificate) = true) :
    (handleCertificateMessage env s cMsg).1.storedBlocks =
      s.storedBlocks ++ [stampCertificate ib cm.certificate] ∧
    (handleCertificateMessage env s cMsg).1.intermediateBlock = some cm.block ∧
    (stampCertificate ib cm.certificate).header.certificate = some cm.certificate ∧
    (handleCertificateMessage env s cMsg).2 =
      [ChainOut.gossipInv (stampCertificate ib cm.certificate).header.hash,
       ChainOut.acceptedBlock (stampCertificate ib cm.certificate),
       ChainOut.intermediateBlockMsg cm.block,
       ChainOut.roundUpdate (h + 2) cm.block.header.hash cm.block.header.seed] := by
  have htxs : (stampCertificate ib cm.certificate).txs = ib.txs := rfl
  have hht : (stampCertificate ib cm.certificate).header.height = ib.header.height := rfl
  unfold handleCertificateMessage
  rw [hcand]
  simp only [hib]
  unfold acceptBlock
  simp only [htxs, hht, hsan, hcert, hexec, happ, Bool.not_eq_true, not_false_iff,
    not_true, ite_true, ite_false, Bool.false_eq_true, if_true, if_false]
  simp [sendRoundUpdate, stampCertificate, hch, hh]

/-- C3 (witness): a concrete run with `chainS0` (intermediate `ib6` at
height 6) and candidate `blk7` at height 7. -/
theorem C3_witness :
    (handleCertificateMessage envHappy chainS0 cMsgA).1.intermediateBlock = some blk7 :=
  (C3_certificate_finalization envHappy chainS0 cMsgA ib6 ⟨blk7, certA⟩ 6 pNew
    rfl rfl rfl rfl rfl rfl rfl rfl).2.1

/-- C4 (counterexample): the per-round entry of the future-rounds map is
NOT bounded by the quorum size — `make([]*SigSetEvent, 0, Quorum())`
only sets the slice capacity and `append` grows past it.  With quorum 1,
two future-round events are both stored. -/
theorem C4_counterexample :
    notaryC1.quorum = 1 ∧
    (lookupD ((processEvent notaryC1 1 ((processEvent notaryC1 1 ssS0 ev71).1) ev72).1.futureRounds) 7).length = 2 := by
  decide

/-- C4 (amended): events with `round < currentRound` are dropped with the
collector state unchanged; non-skipped events with `round > currentRound`
are appended to the future-rounds map entry of their round (without a
size bound); and a non-skipped current-round event that completes a
quorum triggers the round transition, which emits the round notice,
clears the step store and re-processes exactly the events stored for the
new current round. -/
theorem C4_collector_routing (c : NotaryCommittee) (fuel : Nat) (s : SigSetCollectorState)
    (ev : SigSetEvent) :
    (ev.round < s.currentRound → processEvent c (fuel + 1) s ev = (s, [])) ∧
    (c.skip ev = false → ev.round > s.currentRound →
      processEvent c (fuel + 1) s ev =
        ({ s with futureRounds :=
            setEntry s.futureRounds ev.round (lookupD s.futureRounds ev.round ++ [ev]) }, [])) ∧
    (c.skip ev = false → ev.round = s.currentRound →
      ¬ (lookupD s.stepEvents ev.step).length + 1 < c.quorum →
      processEvent c (fuel + 1) s ev =
        (lookupD s.futureRounds (s.currentRound + 1)).foldl
          (fun acc e =>
            let r := processEvent c fuel acc.1 e
            (r.1, acc.2 ++ r.2))
          (⟨s.currentRound + 1, [], s.futureRounds⟩,
           [NotaryOut.roundNotice (s.currentRound + 1)])) := by
  refine ⟨fun hlt => ?_, fun hsk hgt => ?_, fun hsk heq hq => ?_⟩
  · have h0 : s.currentRound ≠ 0 := by omega
    simp [processEvent, h0, hlt]
  · have hlt' : ¬ s.currentRound > ev.round := by omega
    simp [processEvent, shouldBeStored, hsk, hgt, hlt']
  · have hlt' : ¬ s.currentRound > ev.round := by omega
    have hgt' : ¬ ev.round > s.currentRound := by omega
    simp [processEvent, shouldBeStored, nextRoundWith, hsk, hq, hlt', hgt']

/-- C4 (witness): a round-3 event at a round-5 collector is dropped. -/
theorem C4_witness :
    processEvent notaryC1 1 ssS0 ⟨3, 2, [1], [9]⟩ = (ssS0, []) :=
  (C4_collector_routing notaryC1 0 ssS0 ⟨3, 2, [1], [9]⟩).1 (by decide)

/-- C5 (counterexample): quorum reached (`svm` present) and the node a
committee member, yet NO agreement is gossiped, because the first-step
bundle is empty and `stepVotesAreValid` fails. -/
theorem C5_counterexample :
    afterCollect signZ [5] svmEmptyFix 1 3 true (some svmSecondOk) =
      ReductionOutcome.finished none := by
  decide

/-- C5 (amended): at the end of second-step reduction, whenever quorum
is reached, the node is a committee member AND both step-vote bundles
are valid (non-empty, with non-zero hashes), the node gossips an
`Agreement` carrying both bundles in order. -/
theorem C5_agreement_send (sign : ConsHeader → ByteStr) (pk : ByteStr)
    (firstSVM svm : StepVotesMsg) (round step : Nat) (amMember : Bool)
    (hm : amMember = true)
    (hv : stepVotesAreValid [firstSVM, svm] = true) :
    afterCollect sign pk firstSVM round step amMember (some svm) =
      ReductionOutcome.finished (some
        { header := ⟨round, step, pk, svm.header.blockHash⟩,
          signature := sign ⟨round, step, pk, svm.header.blockHash⟩,
          votesPerStep := [firstSVM.stepVotes, svm.stepVotes] }) := by
  simp [afterCollect, sendAgreement, hm, hv]

/-- C5 (witness): with two valid bundles and membership, the agreement
is gossiped with both bundles. -/
theorem C5_witness :
    afterCollect signZ [5] svmFirstOk 1 3 true (some svmSecondOk) =
      ReductionOutcome.finished (some
        { header := ⟨1, 3, [5], svmSecondOk.header.blockHash⟩,
          signature := signZ ⟨1, 3, [5], svmSecondOk.header.blockHash⟩,
          votesPerStep := [svmFirstOk.stepVotes, svmSecondOk.stepVotes] }) :=
  C5_agreement_send signZ [5] svmFirstOk svmSecondOk 1 3 true rfl (by decide)

/-- C7: within a single round (starting from the cleared strike map of a
round update), the third strike for a pubkey publishes a removal request
carrying that pubkey, and at most two strikes publish nothing. -/
theorem C7_strike_threshold (m0 : Moderator) (pk : ByteStr) :
    ((Moderator.roundUpdate m0).run (List.replicate 3 pk)).2 = [pk] ∧
    (∀ k, k ≤ 2 → ((Moderator.roundUpdate m0).run (List.replicate k pk)).2 = []) := by
  constructor
  · simp [Moderator.roundUpdate, Moderator.run, Moderator.addStrike, Moderator.count,
      maxStrikes, List.replicate, List.find?]
  · intro k hk
    interval_cases k <;>
      simp [Moderator.roundUpdate, Moderator.run, Moderator.addStrike, Moderator.count,
        maxStrikes, List.replicate, List.find?]

/-- Helper: `toLE` writes exactly `k` bytes. -/
theorem toLE_length (k n : Nat) : (toLE k n).length = k := by
  induction k generalizing n with
  | zero => rfl
  | succ k ih => simp [toLE, ih]

/-- Helper: little-endian round trip for values that fit. -/
theorem fromLE_toLE (k n : Nat) (h : n < 2 ^ (8 * k)) : fromLE (toLE k n) = n := by
  induction k generalizing n with
  | zero => simp at h; simp [h, toLE, fromLE]
  | succ k ih =>
    have hp : (2 : ℕ) ^ (8 * (k + 1)) = 2 ^ (8 * k) * 256 := by
      rw [Nat.mul_succ, pow_add]
      norm_num
    have hd : n / 256 < 2 ^ (8 * k) :=
      (Nat.div_lt_iff_lt_mul (by norm_num)).mpr (by omega)
    simp only [toLE, fromLE, ih (n / 256) hd]
    omega

/-- Helper: `fromLE ∘ toLE` on 2 bytes. -/
theorem fromLE_toLE2 (n : Nat) (h : n < 2 ^ 16) : fromLE (toLE 2 n) = n :=
  fromLE_toLE 2 n (by norm_num at h ⊢; omega)

/-- Helper: `fromLE ∘ toLE` on 4 bytes. -/
theorem fromLE_toLE4 (n : Nat) (h : n < 2 ^ 32) : fromLE (toLE 4 n) = n :=
  fromLE_toLE 4 n (by norm_num at h ⊢; omega)

/-- Helper: `fromLE ∘ toLE` on 8 bytes. -/
theorem fromLE_toLE8 (n : Nat) (h : n < 2 ^ 64) : fromLE (toLE 8 n) = n :=
  fromLE_toLE 8 n (by norm_num at h ⊢; omega)

/-- Helper: reading the exact prefix back off the stream. -/
theorem readBytes_append (l r : List Nat) (n : Nat) (h : l.length = n) :
    readBytes n (l ++ r) = some (l, r) := by
  subst h
  unfold readBytes
  rw [if_pos (by simp)]
  rw [List.take_left, List.drop_left]

/-- Helper: reading a stream that is exactly the prefix. -/
theorem readBytes_exact (l : List Nat) (n : Nat) (h : l.length = n) :
    readBytes n l = some (l, []) := by
  have := readBytes_append l [] n h
  simpa using this

/-- Helper: `VarInt` round trip on a stream. -/
theorem readVarInt_append (n : Nat) (r : List Nat) (h : n < 2 ^ 64) :
    readVarInt (writeVarInt n ++ r) = some (n, r) := by
  unfold writeVarInt
  by_cases h1 : n < 0xfd
  · rw [if_pos h1]
    have e1 : n ≠ 253 := by omega
    have e2 : n ≠ 254 := by omega
    have e3 : n ≠ 255 := by omega
    simp [readVarInt, e1, e2, e3]
  · rw [if_neg h1]
    by_cases h2 : n ≤ 0xffff
    · rw [if_pos h2]
      simp [readVarInt, readBytes_append _ _ _ (toLE_length 2 n), fromLE_toLE2 n (by omega)]
    · rw [if_neg h2]
      by_cases h3 : n ≤ 0xffffffff
      · rw [if_pos h3]
        simp [readVarInt, readBytes_append _ _ _ (toLE_length 4 n), fromLE_toLE4 n (by omega)]
      · rw [if_neg h3]
        simp [readVarInt, readBytes_append _ _ _ (toLE_length 8 n), fromLE_toLE8 n (by omega)]

/-- Helper: `VarBytes` round trip on a stream. -/
theorem readVarBytes_append (b r : List Nat) (h : b.length < 2 ^ 64) :
    readVarBytes (writeVarBytes b ++ r) = some (b, r) := by
  unfold writeVarBytes readVarBytes
  rw [List.append_assoc, readVarInt_append _ _ h]
  simp [readBytes_append b r b.length rfl]

/-- Helper: a list of `VarBytes` items round-trips on a stream. -/
theorem readVarBytesList_append (bs : List ByteStr) (r : List Nat)
    (h : ∀ b ∈ bs, b.length < 2 ^ 64) :
    readVarBytesList bs.length ((bs.map writeVarBytes).flatten ++ r) = some (bs, r) := by
  induction bs generalizing r with
  | nil => simp [readVarBytesList]
  | cons b bs ih =>
    have hb := readVarBytes_append b ((bs.map writeVarBytes).flatten ++ r) (h b (by simp))
    have hbs := ih r (fun x hx => h x (by simp [hx]))
    simp only [List.map_cons, List.flatten_cons, List.length_cons, List.append_assoc]
    simp [readVarBytesList, hb, hbs]

/-- C6: for every valid certificate, decoding the encoding yields the
certificate back, field for field, with no bytes left over. -/
theorem C6_certificate_roundtrip (c : Certificate) (h : c.valid) :
    ∃ s, c.encode = some s ∧ Certificate.decode s = some (c, []) := by
  obtain ⟨h1, h2, h3, h4, h5, h6, h7, h8, h9⟩ := h
  have he : c.encode = some (c.brBatchedSig ++ toLE 4 c.brStep ++
      writeVarInt c.brPubKeys.length ++ (c.brPubKeys.map writeVarBytes).flatten ++
      c.srBatchedSig ++ toLE 4 c.srStep ++ writeVarInt c.srPubKeys.length ++
      (c.srPubKeys.map writeVarBytes).flatten ++ c.hash) := by
    simp [Certificate.encode, Certificate.encodeHashable, writeBLS, write256, h1, h2, h3]
  refine ⟨_, he, ?_⟩
  simp only [Certificate.decode, List.append_assoc,
    readBytes_append _ _ _ h1, readBytes_append _ _ _ (toLE_length 4 c.brStep),
    readVarInt_append _ _ h6, readVarBytesList_append _ _ h8,
    readBytes_append _ _ _ h2, readBytes_append _ _ _ (toLE_length 4 c.srStep),
    readVarInt_append _ _ h7, readVarBytesList_append _ _ h9,
    readBytes_exact _ _ h3, fromLE_toLE4 _ h4, fromLE_toLE4 _ h5]

/-- C6 (witness): the round trip on the concrete certificate `certA`. -/
theorem C6_witness : ∃ s, certA.encode = some s ∧ Certificate.decode s = some (certA, []) :=
  C6_certificate_roundtrip certA (by decide)

/-- C7 (witness): three strikes on `[1]` after a round update emit one
removal for `[1]`; two strikes emit none. -/
theorem C7_witness :
    ((Moderator.roundUpdate ⟨[([3], 9)]⟩).run (List.replicate 3 [1])).2 = [[1]] ∧
    ((Moderator.roundUpdate ⟨[([3], 9)]⟩).run (List.replicate 2 [1])).2 = [] :=
  ⟨(C7_strike_threshold ⟨[([3], 9)]⟩ [1]).1,
   (C7_strike_threshold ⟨[([3], 9)]⟩ [1]).2 2 (by decide)⟩

set_option maxRecDepth 200000 in
/-- C8 (counterexample): for the spec's own S4 challenge
`"ABC\n" ++ 60 NULs` (which contains a newline), the bytes written are
NOT `UPPERCASE_HEX(SHA-256(challenge ‖ SEEDER_KEY)) ‖ "," ‖ port ‖ "\n"`:
the code hashes only the part of the challenge before the first newline
(`strings.Split(string(buf), "\n")[0]`). -/
theorem C8_counterexample :
    completeChallengeResponse chalS4 keyS4 portS4 ≠ voucherResponseSpec chalS4 keyS4 portS4 := by
  decide

/-- C8 (amended): for every 64-byte challenge that contains no newline
byte, the bytes written back are exactly
`UPPERCASE_HEX(SHA-256(challenge ‖ SEEDER_KEY)) ‖ "," ‖ port ‖ "\n"`;
when the challenge contains a newline, only its part before the first
newline enters the hash. -/
theorem C8_response_format (challenge seederKey port : List Nat)
    (hlen : challenge.length = 64) (hnl : ¬ 10 ∈ challenge) :
    completeChallengeResponse challenge seederKey port =
      voucherResponseSpec challenge seederKey port := by
  have hx : ∀ x ∈ challenge, (x != 10) = true := by
    intro x hx
    simp only [bne_iff_ne, ne_eq]
    intro hc
    exact hnl (hc ▸ hx)
  unfold completeChallengeResponse voucherResponseSpec untilNewline
  rw [List.takeWhile_eq_self_iff.mpr hx]

/-- C8 (witness): the all-zero 64-byte challenge matches the spec's
formula byte for byte. -/
theorem C8_witness :
    completeChallengeResponse chalZeros keyS4 portS4 =
      voucherResponseSpec chalZeros keyS4 portS4 :=
  C8_response_format chalZeros keyS4 portS4 (by decide) (by decide)

end Dusk
